import Mathlib

/-!
Verification of the document/text-buffer core of the mininotion editor.

The Rust source stores document content as a UTF-8 String and addresses it
with byte offsets.  We embed content as a list of characters and measure
byte positions through Char.utf8Size, so that a byte offset is the sum of
the UTF-8 sizes of the characters before it.  Byte-offset slicing and
substring search are defined to act at character boundaries, which matches
Rust string semantics: a valid UTF-8 needle can only match at a character
boundary of a valid UTF-8 haystack, and Rust slicing at non-boundary
offsets panics (so in theorems that touch slicing we carry boundary
hypotheses mirroring the conditions under which the Rust code runs).

Floating-point scroll offsets (f32 in the source) are embedded as rational
numbers: the clamping logic under verification is purely order-theoretic
and does not depend on rounding.
-/

/-- Total UTF-8 byte length of a character list, the embedding of
Rust String.len(). -/
def utf8Len (s : List Char) : Nat :=
  (s.map Char.utf8Size).sum

/-- Embedding of Rust byte slicing content[..n]: take characters while the
accumulated UTF-8 size stays within n.  At a character boundary n this
returns exactly the characters occupying bytes 0..n. -/
def byteTake : List Char → Nat → List Char
  | [], _ => []
  | c :: tl, n => if c.utf8Size ≤ n then c :: byteTake tl (n - c.utf8Size) else []

/-- Embedding of Rust byte slicing content[n..]: drop characters until n
bytes have been passed. -/
def byteDrop : List Char → Nat → List Char
  | [], _ => []
  | c :: tl, n => if n = 0 then c :: tl else byteDrop tl (n - c.utf8Size)

/-- Embedding of Rust byte slicing content[s..e]. -/
def byteSlice (content : List Char) (s e : Nat) : List Char :=
  byteTake (byteDrop content s) (e - s)

/-- Decides whether a byte offset lands on a character boundary of the
content (offset 0, the end, or between two character encodings). -/
def isBoundaryB : List Char → Nat → Bool
  | _, 0 => true
  | [], _ + 1 => false
  | c :: tl, n => if c.utf8Size ≤ n then isBoundaryB tl (n - c.utf8Size) else false

/-- Embedding of Rust str::find for a string needle: byte offset of the
leftmost occurrence.  The search steps character by character, which is
faithful because a valid UTF-8 needle never matches at a non-boundary
byte position (its first byte is a leading byte). -/
def byteFind : List Char → List Char → Option Nat
  | hay, needle =>
    if needle.isPrefixOf hay then some 0
    else
      match hay with
      | [] => none
      | c :: tl => (byteFind tl needle).map (fun p => p + c.utf8Size)

/-- Number of newline characters in the content; over UTF-8 this equals
the number of 0x0A bytes, since the newline byte occurs only as the
one-byte newline character. -/
def countNl (s : List Char) : Nat :=
  (s.filter (fun c => c = '\n')).length

/-- Characters of the content after the last newline (the whole content
when no newline occurs).  This embeds the rfind-then-slice computation of
update_cursor_position_from_content: rfind locates the last newline byte
and the code slices just past it; when rfind is none the code counts the
characters of the whole prefix, which coincides with taking everything. -/
def lastLine (s : List Char) : List Char :=
  (s.reverse.takeWhile (fun c => c ≠ '\n')).reverse

/-- Embedding of Rust content.lines().count(): the number of
newline-terminated segments, where a trailing newline does not open a
final empty segment and empty content has zero lines. -/
def linesCount (s : List Char) : Nat :=
  if s = [] then 0
  else countNl s + (if s.getLast? = some '\n' then 0 else 1)

/-- Status messages produced by the find and replace operations, embedding
the set_status_message strings of the source. -/
inductive EditorMsg where
  | found (pos : Nat) : EditorMsg
  | notFound : EditorMsg
  | replaced : EditorMsg
  | mismatch : EditorMsg
  | noSelection : EditorMsg
deriving DecidableEq

/-- Embedding of the Document struct of editor.rs.  The syntect fields
(syntax, syntax_set, theme_set) are external black boxes and carry no
verified behaviour, so they are omitted; scroll_offset (f32 in the
source) is embedded as a rational number. -/
structure Document where
  path : Option String
  content : List Char
  filename : String
  is_modified : Bool
  scroll_offset : ℚ
  cursor_position : Nat
  line_numbers : Bool
  word_wrap : Bool
  selection : Option (Nat × Nat)
  current_line : Nat
  current_column : Nat
deriving DecidableEq

/-- Embedding of Document::new. -/
def Document.new : Document where
  path := none
  content := []
  filename := "Untitled"
  is_modified := false
  scroll_offset := 0
  cursor_position := 0
  line_numbers := true
  word_wrap := true
  selection := none
  current_line := 0
  current_column := 0

/-- Embedding of Document::get_line_count: lines().count().max(1). -/
def Document.get_line_count (d : Document) : Nat :=
  max (linesCount d.content) 1

/-- Embedding of Document::update_cursor_position_from_content: the cursor
is placed at the byte length of the content (the end of the buffer), the
line is the newline count of the text before the cursor, and the column is
the character count of the text after the last newline before the
cursor. -/
def Document.update_cursor_position_from_content (d : Document) : Document :=
  let cursor_pos := utf8Len d.content
  let text_before_cursor := d.content
  { d with
      cursor_position := cursor_pos
      current_line := countNl text_before_cursor
      current_column := (lastLine text_before_cursor).length }

/-- Embedding of the edit path of Document::ui: when the text edit reports
a change the document content is the new text, is_modified is set, and the
cursor state is recomputed from the content. -/
def Document.apply_edit (d : Document) (newContent : List Char) : Document :=
  Document.update_cursor_position_from_content
    { d with content := newContent, is_modified := true }

/-- Embedding of NotionApp::find_text acting on the active document: the
whole content is searched from its beginning for the first occurrence of
the needle; on success the cursor moves to the match start and the
selection covers the match (byte offsets); on failure the document is
unchanged. -/
def Document.find_text (d : Document) (needle : List Char) : Document × EditorMsg :=
  match byteFind d.content needle with
  | some pos =>
      ({ d with cursor_position := pos
                selection := some (pos, pos + utf8Len needle) }, EditorMsg.found pos)
  | none => (d, EditorMsg.notFound)

/-- Embedding of NotionApp::replace_text acting on the active document:
with no selection, or with a selected slice differing from the needle, the
document is untouched and only a status message is produced; otherwise the
selected byte range is replaced by the replacement, the selection becomes
(start, start + byte length of the replacement) and is_modified is set. -/
def Document.replace_text (d : Document) (needle repl : List Char) :
    Document × EditorMsg :=
  match d.selection with
  | none => (d, EditorMsg.noSelection)
  | some (s, e) =>
      if byteSlice d.content s e = needle then
        let before := byteTake d.content s
        let after := byteDrop d.content e
        ({ d with content := before ++ repl ++ after
                  selection := some (s, s + utf8Len repl)
                  is_modified := true }, EditorMsg.replaced)
      else (d, EditorMsg.mismatch)

/-- Embedding of the drag branch of Document::ui: the cursor state is
recomputed from the content, then (cursor being positive) the selection is
set to the last ten bytes before the cursor, by raw byte subtraction. -/
def Document.drag_select (d : Document) : Document :=
  let d2 := Document.update_cursor_position_from_content d
  if 0 < d2.cursor_position then
    let start := if 10 < d2.cursor_position then d2.cursor_position - 10 else 0
    { d2 with selection := some (start, d2.cursor_position) }
  else
    { d2 with selection := none }

/-- Embedding of Document::scroll_to_line: record the line and set the
scroll offset to line times the approximate line height of 18. -/
def Document.scroll_to_line (d : Document) (line : Nat) : Document :=
  { d with current_line := line, scroll_offset := (line : ℚ) * 18 }

/-- Embedding of the wheel-scroll branch of Document::ui: a nonzero delta
is added to the offset, the result is clamped below by 0 and above by
line count times the approximate line height of 18. -/
def Document.apply_scroll_delta (d : Document) (delta : ℚ) : Document :=
  if delta ≠ 0 then
    let o1 := d.scroll_offset + delta
    let o2 := max o1 0
    let o3 := min o2 ((d.get_line_count : ℚ) * 18)
    { d with scroll_offset := o3 }
  else d

/-- Embedding of the selection label of the editor status bar: the
difference end minus start of the selection byte offsets, printed as the
selection size. -/
def Document.sel_display (d : Document) : Option Nat :=
  d.selection.map (fun p => p.2 - p.1)

/-- Model of std Path::file_name for the simple paths the editor handles:
the component after the last separator, with the Untitled sentinel when it
is empty. -/
def fileNameOf (p : String) : String :=
  let tail := (p.toList.reverse.takeWhile (fun c => c ≠ '/')).reverse
  if tail = [] then "Untitled" else String.mk tail

/-- Embedding of Document::save_to_file on the successful filesystem path:
the returned write request carries the target path and the content, and
the document records the path, the derived filename and a cleared
is_modified flag.  Filesystem failures are environmental and outside the
model. -/
def Document.save_to_file (d : Document) (p : String) :
    Document × Option (String × List Char) :=
  ({ d with path := some p, filename := fileNameOf p, is_modified := false },
   some (p, d.content))

/-- Embedding of Document::save: with a recorded path, delegate to
save_to_file on that path; with no path, return success while doing
nothing (no write request, document untouched). -/
def Document.save (d : Document) : Document × Option (String × List Char) :=
  match d.path with
  | some p => Document.save_to_file d p
  | none => (d, none)

/-- Embedding of the DocumentCollection struct of editor.rs. -/
structure DocumentCollection where
  documents : List Document
deriving DecidableEq

/-- Embedding of DocumentCollection::new. -/
def DocumentCollection.new : DocumentCollection := ⟨[]⟩

/-- Embedding of DocumentCollection::add (Vec::push). -/
def DocumentCollection.add (c : DocumentCollection) (d : Document) :
    DocumentCollection := ⟨c.documents ++ [d]⟩

/-- Embedding of DocumentCollection::len. -/
def DocumentCollection.len (c : DocumentCollection) : Nat :=
  c.documents.length

/-- Embedding of DocumentCollection::close: remove the element at the
index when it is in bounds and report whether a removal happened. -/
def DocumentCollection.close (c : DocumentCollection) (i : Nat) :
    DocumentCollection × Bool :=
  if i < c.documents.length then (⟨c.documents.eraseIdx i⟩, true) else (c, false)

/-- Embedding of the tab-close handler of NotionApp::show_tabs_bar: close
the clicked index, and when a document was removed reconcile the active
index to none on an empty collection and to the minimum of the closed
index and the new last index otherwise. -/
def tabsCloseReconcile (c : DocumentCollection) (active : Option Nat)
    (closeIdx : Nat) : DocumentCollection × Option Nat :=
  let r := DocumentCollection.close c closeIdx
  if r.2 then
    if r.1.len = 0 then (r.1, none)
    else (r.1, some (min closeIdx (r.1.len - 1)))
  else (c, active)

/-- Specification-side search with a start offset, written out of the
contract words of the spec for comparison with the implemented search:
leftmost character-boundary occurrence of the needle at or after the given
byte offset. -/
def findFromSpec : List Char → List Char → Nat → Option Nat
  | hay, needle, start =>
    if start = 0 ∧ needle.isPrefixOf hay then some 0
    else
      match hay with
      | [] => none
      | c :: tl =>
          (findFromSpec tl needle (start - c.utf8Size)).map (fun p => p + c.utf8Size)

/-! Basic facts about the byte-length and slicing primitives. -/

theorem utf8Len_append (a b : List Char) :
    utf8Len (a ++ b) = utf8Len a + utf8Len b := by
  simp [utf8Len]

theorem utf8Len_cons (c : Char) (tl : List Char) :
    utf8Len (c :: tl) = c.utf8Size + utf8Len tl := by
  simp [utf8Len]

theorem utf8Len_eq_zero {a : List Char} (h : utf8Len a = 0) : a = [] := by
  cases a with
  | nil => rfl
  | cons c tl =>
      exfalso
      have hpos := Char.utf8Size_pos c
      rw [utf8Len_cons] at h
      omega

theorem length_le_utf8Len (s : List Char) : s.length ≤ utf8Len s := by
  induction s with
  | nil => simp [utf8Len]
  | cons c tl ih =>
      have hpos := Char.utf8Size_pos c
      rw [utf8Len_cons]
      simp only [List.length_cons]
      omega

theorem byteTake_append (a b : List Char) : byteTake (a ++ b) (utf8Len a) = a := by
  induction a with
  | nil =>
      cases b with
      | nil => rfl
      | cons c tl =>
          have hpos := Char.utf8Size_pos c
          simp [byteTake, utf8Len]
          omega
  | cons c tl ih =>
      have hpos := Char.utf8Size_pos c
      have hle : c.utf8Size ≤ utf8Len (c :: tl) := by rw [utf8Len_cons]; omega
      simp [byteTake, hle, utf8Len_cons, ih]

theorem byteDrop_append (a b : List Char) : byteDrop (a ++ b) (utf8Len a) = b := by
  induction a with
  | nil =>
      cases b with
      | nil => rfl
      | cons c tl => simp [byteDrop, utf8Len]
  | cons c tl ih =>
      have hpos := Char.utf8Size_pos c
      have hne : ¬ (c.utf8Size + utf8Len tl = 0) := by omega
      show byteDrop (c :: (tl ++ b)) (utf8Len (c :: tl)) = b
      rw [utf8Len_cons]
      simp only [byteDrop, if_neg hne]
      rw [Nat.add_sub_cancel_left]
      exact ih

theorem byteSlice_append (a b c : List Char) :
    byteSlice (a ++ b ++ c) (utf8Len a) (utf8Len a + utf8Len b) = b := by
  unfold byteSlice
  rw [List.append_assoc, byteDrop_append, Nat.add_sub_cancel_left, byteTake_append]

/-! Facts about the leftmost-occurrence search. -/

/-- Occurrence of the needle at a given byte offset of the haystack: the
haystack splits as a prefix of that byte length, the needle, and a
suffix. -/
def OccursAt (hay needle : List Char) (p : Nat) : Prop :=
  ∃ pre suf, hay = pre ++ needle ++ suf ∧ utf8Len pre = p

theorem byteFind_some_occurs {hay needle : List Char} {p : Nat}
    (h : byteFind hay needle = some p) : OccursAt hay needle p := by
  induction hay generalizing p with
  | nil =>
      unfold byteFind at h
      by_cases hp : needle.isPrefixOf ([] : List Char)
      · simp [hp] at h
        obtain ⟨t, ht⟩ := List.isPrefixOf_iff_prefix.mp hp
        refine ⟨[], t, by simp [ht], ?_⟩
        simp [utf8Len, ← h]
      · simp [hp] at h
  | cons c tl ih =>
      unfold byteFind at h
      by_cases hp : needle.isPrefixOf (c :: tl)
      · simp [hp] at h
        obtain ⟨t, ht⟩ := List.isPrefixOf_iff_prefix.mp hp
        exact ⟨[], t, by simp [ht, ← h], by simp [← h, utf8Len]⟩
      · simp [hp] at h
        rcases h with ⟨p0, hp0, hsum⟩
        rcases ih hp0 with ⟨pre, suf, hsplit, hlen⟩
        refine ⟨c :: pre, suf, by simp [hsplit], ?_⟩
        rw [utf8Len_cons, hlen]
        omega

theorem byteFind_min {hay needle : List Char} {p q : Nat}
    (h : byteFind hay needle = some p) (hq : OccursAt hay needle q) : p ≤ q := by
  induction hay generalizing p q with
  | nil =>
      rcases hq with ⟨pre, suf, hsplit, hlen⟩
      have hpre : pre = [] := by
        cases pre with
        | nil => rfl
        | cons a b => simp at hsplit
      unfold byteFind at h
      by_cases hp : needle.isPrefixOf ([] : List Char)
      · simp [hp] at h
        subst hpre
        simp [utf8Len] at hlen
        omega
      · simp [hp] at h
  | cons c tl ih =>
      unfold byteFind at h
      by_cases hp : needle.isPrefixOf (c :: tl)
      · simp [hp] at h
        omega
      · simp [hp] at h
        rcases h with ⟨p0, hp0, hsum⟩
        rcases hq with ⟨pre, suf, hsplit, hlen⟩
        cases pre with
        | nil =>
            exfalso
            apply hp
            apply List.isPrefixOf_iff_prefix.mpr
            exact ⟨suf, by simpa using hsplit.symm⟩
        | cons c0 pre0 =>
            have hc : c0 = c := by
              have := hsplit
              simp at this
              exact this.1.symm
            have htl : tl = pre0 ++ needle ++ suf := by
              have := hsplit
              simp at this
              rw [List.append_assoc]
              exact this.2
            have hq0 : OccursAt tl needle (utf8Len pre0) := ⟨pre0, suf, htl, rfl⟩
            have hle := ih hp0 hq0
            rw [utf8Len_cons, hc] at hlen
            omega

/-! Facts about the line/column computation. -/

theorem takeWhile_all {p : Char → Bool} {l : List Char}
    (h : ∀ x ∈ l, p x = true) : l.takeWhile p = l := by
  induction l with
  | nil => rfl
  | cons a tl ih =>
      have ha : p a = true := h a (by simp)
      rw [List.takeWhile_cons, if_pos ha,
        ih (fun x hx => h x (List.mem_cons_of_mem a hx))]

theorem takeWhile_append_stop {p : Char → Bool} {xs : List Char} (y : Char)
    (ys : List Char) (hxs : ∀ x ∈ xs, p x = true) (hy : p y = false) :
    (xs ++ y :: ys).takeWhile p = xs := by
  induction xs with
  | nil => rw [List.nil_append, List.takeWhile_cons, if_neg (by simp [hy])]
  | cons a tl ih =>
      have ha : p a = true := hxs a (by simp)
      rw [List.cons_append, List.takeWhile_cons, if_pos ha,
        ih (fun x hx => hxs x (List.mem_cons_of_mem a hx))]

theorem lastLine_no_nl {s : List Char} (h : '\n' ∉ s) : lastLine s = s := by
  unfold lastLine
  rw [takeWhile_all, List.reverse_reverse]
  intro x hx
  simp only [decide_eq_true_eq]
  intro hcontra
  exact h (by rw [← hcontra]; exact (List.mem_reverse).mp hx)

theorem lastLine_append_nl (a b : List Char) (hb : '\n' ∉ b) :
    lastLine (a ++ '\n' :: b) = b := by
  unfold lastLine
  have hrev : (a ++ '\n' :: b).reverse = b.reverse ++ '\n' :: a.reverse := by
    simp
  rw [hrev, takeWhile_append_stop '\n' a.reverse, List.reverse_reverse]
  · intro x hx
    simp only [decide_eq_true_eq]
    intro hcontra
    exact hb (by rw [← hcontra]; exact (List.mem_reverse).mp hx)
  · simp

theorem countNl_no_nl {s : List Char} (h : '\n' ∉ s) : countNl s = 0 := by
  unfold countNl
  rw [List.length_eq_zero]
  rw [List.filter_eq_nil_iff]
  intro a ha
  simp only [decide_eq_true_eq]
  intro hcontra
  exact h (hcontra ▸ ha)

theorem countNl_append (a b : List Char) :
    countNl (a ++ b) = countNl a + countNl b := by
  simp [countNl]

theorem countNl_cons_nl (b : List Char) : countNl ('\n' :: b) = countNl b + 1 := by
  simp [countNl, List.filter_cons]

/-! Claim theorems. -/

/-- Claim C3: when the active selection (s, e) covers a slice of the
content byte-for-byte equal to the needle (content = a ++ b ++ c with the
selection spanning exactly b and the needle equal to b), replace succeeds:
the new content is a ++ replacement ++ c, the new selection is
(s, s + byte length of the replacement), and the document is marked
modified. -/
theorem c3_replace_selected (d : Document) (a b c repl : List Char) (s e : Nat)
    (hc : d.content = a ++ b ++ c) (hsel : d.selection = some (s, e))
    (hs : s = utf8Len a) (he : e = utf8Len a + utf8Len b) :
    (Document.replace_text d b repl).1.content = a ++ repl ++ c ∧
    (Document.replace_text d b repl).1.selection = some (s, s + utf8Len repl) ∧
    (Document.replace_text d b repl).1.is_modified = true ∧
    (Document.replace_text d b repl).2 = EditorMsg.replaced := by
  have hslice : byteSlice d.content s e = b := by
    rw [hc, hs, he, byteSlice_append]
  have hbefore : byteTake d.content s = a := by
    rw [hc, hs, List.append_assoc, byteTake_append]
  have hafter : byteDrop d.content e = c := by
    rw [hc, he, ← utf8Len_append, byteDrop_append]
  unfold Document.replace_text
  rw [hsel]
  simp only [hslice, if_pos rfl, hbefore, hafter]
  exact ⟨rfl, rfl, rfl, rfl⟩

/-- Claim C3 witness: selection (0, 3) over abcdef with needle abc and
replacement XY yields content XYdef and selection (0, 2). -/
theorem c3_replace_selected_witness :
    (Document.replace_text
        { Document.new with content := "abcdef".toList, selection := some (0, 3) }
        "abc".toList "XY".toList).1.content = "XYdef".toList ∧
    (Document.replace_text
        { Document.new with content := "abcdef".toList, selection := some (0, 3) }
        "abc".toList "XY".toList).1.selection = some (0, 2) ∧
    (Document.replace_text
        { Document.new with content := "abcdef".toList, selection := some (0, 3) }
        "abc".toList "XY".toList).1.is_modified = true ∧
    (Document.replace_text
        { Document.new with content := "abcdef".toList, selection := some (0, 3) }
        "abc".toList "XY".toList).2 = EditorMsg.replaced :=
  @c3_replace_selected
    { Document.new with content := "abcdef".toList, selection := some (0, 3) }
    [] "abc".toList "def".toList "XY".toList 0 3
    (by decide) rfl (by decide) (by decide)

/-- Claim C4: replace is atomic on its two failure paths: with no active
selection, or with a selected slice differing from the needle, the
document (content, selection, modification flag, every field) is returned
unchanged and only a status message is produced. -/
theorem c4_replace_atomic (d : Document) (needle repl : List Char) :
    (d.selection = none →
      Document.replace_text d needle repl = (d, EditorMsg.noSelection)) ∧
    (∀ s e, d.selection = some (s, e) → byteSlice d.content s e ≠ needle →
      Document.replace_text d needle repl = (d, EditorMsg.mismatch)) := by
  constructor
  · intro hnone
    unfold Document.replace_text
    rw [hnone]
  · intro s e hsel hne
    unfold Document.replace_text
    rw [hsel]
    simp only [if_neg hne]

/-- Claim C4 witness: a document with no selection is untouched by
replace, and a document whose selected slice abc differs from the needle
zzz is untouched by replace. -/
theorem c4_replace_atomic_witness :
    Document.replace_text Document.new "abc".toList "XY".toList
        = (Document.new, EditorMsg.noSelection) ∧
    Document.replace_text
        { Document.new with content := "abcdef".toList, selection := some (0, 3) }
        "zzz".toList "XY".toList
      = ({ Document.new with content := "abcdef".toList, selection := some (0, 3) },
         EditorMsg.mismatch) :=
  ⟨(c4_replace_atomic Document.new "abc".toList "XY".toList).1 rfl,
   (c4_replace_atomic
      { Document.new with content := "abcdef".toList, selection := some (0, 3) }
      "zzz".toList "XY".toList).2 0 3 rfl (by decide)⟩

/-- Claim C5: the cursor recomputation places the cursor at the byte
length of the content and derives the line as the newline count of the
text before the cursor and the column as the character count (not byte
count) of the text after the last newline: on content a ++ newline ++ b
with no newline in b the line is the newline count of a plus one and the
column is the character length of b, and on newline-free content the line
is zero and the column is the character length of the content. -/
theorem c5_line_column (d : Document) :
    (Document.update_cursor_position_from_content d).cursor_position
        = utf8Len d.content ∧
    (∀ a b, d.content = a ++ '\n' :: b → '\n' ∉ b →
      (Document.update_cursor_position_from_content d).current_line
          = countNl a + 1 ∧
      (Document.update_cursor_position_from_content d).current_column
          = b.length) ∧
    ('\n' ∉ d.content →
      (Document.update_cursor_position_from_content d).current_line = 0 ∧
      (Document.update_cursor_position_from_content d).current_column
          = d.content.length) := by
  refine ⟨rfl, ?_, ?_⟩
  · intro a b hsplit hb
    constructor
    · show countNl d.content = countNl a + 1
      rw [hsplit, countNl_append, countNl_cons_nl, countNl_no_nl hb]
    · show (lastLine d.content).length = b.length
      rw [hsplit, lastLine_append_nl a b hb]
  · intro hno
    constructor
    · show countNl d.content = 0
      exact countNl_no_nl hno
    · show (lastLine d.content).length = d.content.length
      rw [lastLine_no_nl hno]

/-- Claim C5 witness: with content containing multi-byte characters and a
newline, the cursor at the end of the buffer yields line 1 and column 5
(the character count of the final line, not its byte count 6). -/
theorem c5_line_column_witness :
    (Document.update_cursor_position_from_content
        { Document.new with content := "héllo\nwörld".toList }).current_line = 1 ∧
    (Document.update_cursor_position_from_content
        { Document.new with content := "héllo\nwörld".toList }).current_column = 5 :=
  (c5_line_column
      { Document.new with content := "héllo\nwörld".toList }).2.1
    "héllo".toList "wörld".toList (by decide) (by decide)

/-- Claim C6: after a content-changing edit the cursor byte offset equals
the byte length of the (new) content, i.e. the cursor is repositioned to
the end of the buffer, the document is marked modified, and line and
column are recomputed from that end-of-buffer offset. -/
theorem c6_edit_cursor_to_end (d : Document) (t : List Char) :
    (Document.apply_edit d t).content = t ∧
    (Document.apply_edit d t).cursor_position
        = utf8Len (Document.apply_edit d t).content ∧
    (Document.apply_edit d t).is_modified = true ∧
    (Document.apply_edit d t).current_line = countNl t ∧
    (Document.apply_edit d t).current_column = (lastLine t).length :=
  ⟨rfl, rfl, rfl, rfl, rfl⟩

/-- Claim C10: saving a document that has no recorded path is a silent
successful no-op: no write request is issued and the document is returned
with every field unchanged. -/
theorem c10_save_without_path (d : Document) (h : d.path = none) :
    Document.save d = (d, none) := by
  unfold Document.save
  rw [h]

/-- Claim C10 witness: saving a fresh document (path none) issues no write
and changes nothing. -/
theorem c10_save_without_path_witness :
    Document.save Document.new = (Document.new, none) :=
  c10_save_without_path Document.new rfl

/-- Claim C1 counterexample: the implemented find has no start offset.  On
content abcabc with needle abc, the specification search started at offset
1 gives byte offset 3, but the implemented operation reports offset 0
(the leftmost occurrence of the whole content) regardless of any prior
cursor position. -/
theorem c1_counterexample :
    (Document.find_text
        { Document.new with content := "abcabc".toList, cursor_position := 1 }
        "abc".toList).1.cursor_position = 0 ∧
    findFromSpec "abcabc".toList "abc".toList 1 = some 3 ∧
    (0 : Nat) ≠ 3 := by
  exact ⟨by decide, by decide, by decide⟩

/-- Claim C1 amended: the implemented find always searches the whole
content from its beginning: a reported match position is an occurrence of
the needle and no occurrence lies at any earlier byte offset (in
particular, on content abcabc the needle abc is reported at offset 0). -/
theorem c1_find_leftmost {d : Document} {needle : List Char} {p : Nat}
    (h : (Document.find_text d needle).2 = EditorMsg.found p) :
    OccursAt d.content needle p ∧
      ∀ q, OccursAt d.content needle q → p ≤ q := by
  have hb : byteFind d.content needle = some p := by
    unfold Document.find_text at h
    cases hf : byteFind d.content needle with
    | none => rw [hf] at h; exact absurd h (by simp)
    | some pos =>
        rw [hf] at h
        simp only at h
        cases h
        rfl
  exact ⟨byteFind_some_occurs hb, fun q hq => byteFind_min hb hq⟩

/-- Claim C1 amended witness: on content abcabc, find with needle abc
reports offset 0, which is an occurrence and is minimal among all
occurrences. -/
theorem c1_find_leftmost_witness :
    OccursAt "abcabc".toList "abc".toList 0 ∧
      ∀ q, OccursAt "abcabc".toList "abc".toList q → 0 ≤ q :=
  @c1_find_leftmost { Document.new with content := "abcabc".toList }
    "abc".toList 0 (by decide)

/-- Claim C2 counterexample: with three open documents and active index 2,
closing index 0 through the tab bar yields active index 0 (the minimum of
the closed index and the new last index), not 1 as the claim states. -/
theorem c2_counterexample :
    (tabsCloseReconcile
        (DocumentCollection.add
          (DocumentCollection.add
            (DocumentCollection.add DocumentCollection.new Document.new)
            Document.new)
          Document.new)
        (some 2) 0).2 = some 0 ∧
    (some 0 : Option Nat) ≠ some 1 := by
  exact ⟨by decide, by decide⟩

/-- Claim C2 amended: after closing an in-bounds index, the collection
shrinks by one; the active index becomes none when the collection is now
empty and otherwise the minimum of the closed index and the new last
index, which is always a valid index of the shrunken collection. -/
theorem c2_close_reconcile (c : DocumentCollection) (a : Option Nat) (i : Nat)
    (h : i < c.len) :
    (tabsCloseReconcile c a i).1.len = c.len - 1 ∧
    (c.len - 1 = 0 → (tabsCloseReconcile c a i).2 = none) ∧
    (c.len - 1 ≠ 0 →
      (tabsCloseReconcile c a i).2 = some (min i (c.len - 1 - 1))) ∧
    (∀ j, (tabsCloseReconcile c a i).2 = some j →
      j < (tabsCloseReconcile c a i).1.len) := by
  have hlt : i < c.documents.length := h
  have hclose : DocumentCollection.close c i = (⟨c.documents.eraseIdx i⟩, true) := by
    unfold DocumentCollection.close
    rw [if_pos hlt]
  have hlen : (⟨c.documents.eraseIdx i⟩ : DocumentCollection).len = c.len - 1 := by
    show (c.documents.eraseIdx i).length = c.documents.length - 1
    exact List.length_eraseIdx_of_lt hlt
  have heq : tabsCloseReconcile c a i =
      (⟨c.documents.eraseIdx i⟩,
        if c.len - 1 = 0 then none else some (min i (c.len - 1 - 1))) := by
    unfold tabsCloseReconcile
    rw [hclose]
    simp only [hlen]
    by_cases h0 : c.len - 1 = 0 <;> simp [h0]
  refine ⟨by rw [heq]; exact hlen, ?_, ?_, ?_⟩
  · intro h0
    rw [heq]
    simp only [if_pos h0]
  · intro h0
    rw [heq]
    simp only [if_neg h0]
  · intro j hj
    rw [heq] at hj ⊢
    by_cases h0 : c.len - 1 = 0
    · rw [if_pos h0] at hj
      exact absurd hj (by simp)
    · rw [if_neg h0] at hj
      injection hj with hj2
      show j < (⟨c.documents.eraseIdx i⟩ : DocumentCollection).len
      rw [hlen, ← hj2]
      have hmin : min i (c.len - 1 - 1) ≤ c.len - 1 - 1 := Nat.min_le_right _ _
      omega

/-- Claim C2 amended witness: with three open documents and active index
2, closing index 0 shrinks the collection to two documents and yields
active index 0, a valid index. -/
theorem c2_close_reconcile_witness :
    (tabsCloseReconcile
        (DocumentCollection.add
          (DocumentCollection.add
            (DocumentCollection.add DocumentCollection.new Document.new)
            Document.new)
          Document.new)
        (some 2) 0).1.len
        = (DocumentCollection.add
            (DocumentCollection.add
              (DocumentCollection.add DocumentCollection.new Document.new)
              Document.new)
            Document.new).len - 1 ∧
    ((DocumentCollection.add
        (DocumentCollection.add
          (DocumentCollection.add DocumentCollection.new Document.new)
          Document.new)
        Document.new).len - 1 = 0 →
      (tabsCloseReconcile
        (DocumentCollection.add
          (DocumentCollection.add
            (DocumentCollection.add DocumentCollection.new Document.new)
            Document.new)
          Document.new)
        (some 2) 0).2 = none) ∧
    ((DocumentCollection.add
        (DocumentCollection.add
          (DocumentCollection.add DocumentCollection.new Document.new)
          Document.new)
        Document.new).len - 1 ≠ 0 →
      (tabsCloseReconcile
        (DocumentCollection.add
          (DocumentCollection.add
            (DocumentCollection.add DocumentCollection.new Document.new)
            Document.new)
          Document.new)
        (some 2) 0).2
        = some (min 0
            ((DocumentCollection.add
              (DocumentCollection.add
                (DocumentCollection.add DocumentCollection.new Document.new)
                Document.new)
              Document.new).len - 1 - 1))) ∧
    (∀ j,
      (tabsCloseReconcile
        (DocumentCollection.add
          (DocumentCollection.add
            (DocumentCollection.add DocumentCollection.new Document.new)
            Document.new)
          Document.new)
        (some 2) 0).2 = some j →
      j < (tabsCloseReconcile
        (DocumentCollection.add
          (DocumentCollection.add
            (DocumentCollection.add DocumentCollection.new Document.new)
            Document.new)
          Document.new)
        (some 2) 0).1.len) :=
  c2_close_reconcile
    (DocumentCollection.add
      (DocumentCollection.add
        (DocumentCollection.add DocumentCollection.new Document.new)
        Document.new)
      Document.new)
    (some 2) 0 (by decide)

/-- Claim C7: the drag-selection path violates the character-boundary
invariant that the claim states.  With 13-byte content of five two-byte
characters followed by a three-byte character, an edit places the cursor
at byte 13 and a drag sets the selection start to 13 - 10 = 3 by raw byte
subtraction, and byte offset 3 is not a character boundary of the content
(it splits the second character).  The other selection-producing path
(find) and the cursor updates do respect boundaries; this one code path
contradicts the stated invariant and would make a subsequent replace slice
panic. -/
theorem c7_drag_selection_boundary_bug :
    (Document.drag_select
        (Document.apply_edit Document.new "ééééé€".toList)).selection
      = some (3, 13) ∧
    isBoundaryB
        (Document.drag_select
          (Document.apply_edit Document.new "ééééé€".toList)).content 3
      = false := by
  exact ⟨by decide, by decide⟩

/-- Claim C8: wheel scrolling and scroll-to-line keep the scroll offset in
the interval from 0 to the line count times the approximate line height of
18: a delta is added and the result clamped into that interval (so from
any in-range offset the offset stays in range, never negative and never
past the last line), and scroll-to-line sets the offset to the line number
times 18, which is in range for any existing line. -/
theorem c8_scroll_clamped (d : Document) (delta : ℚ) (line : Nat)
    (hinv : 0 ≤ d.scroll_offset ∧
      d.scroll_offset ≤ (d.get_line_count : ℚ) * 18)
    (hline : line < d.get_line_count) :
    (0 ≤ (Document.apply_scroll_delta d delta).scroll_offset ∧
      (Document.apply_scroll_delta d delta).scroll_offset
        ≤ (d.get_line_count : ℚ) * 18) ∧
    ((Document.scroll_to_line d line).scroll_offset = (line : ℚ) * 18 ∧
      0 ≤ (Document.scroll_to_line d line).scroll_offset ∧
      (Document.scroll_to_line d line).scroll_offset
        ≤ (d.get_line_count : ℚ) * 18) := by
  have hM : (0 : ℚ) ≤ (d.get_line_count : ℚ) * 18 := by positivity
  constructor
  · unfold Document.apply_scroll_delta
    by_cases hz : delta ≠ 0
    · rw [if_pos hz]
      constructor
      · show 0 ≤ min (max (d.scroll_offset + delta) 0) ((d.get_line_count : ℚ) * 18)
        exact le_min (le_max_right _ _) hM
      · show min (max (d.scroll_offset + delta) 0) ((d.get_line_count : ℚ) * 18)
            ≤ (d.get_line_count : ℚ) * 18
        exact min_le_right _ _
    · rw [if_neg hz]
      exact hinv
  · refine ⟨rfl, ?_, ?_⟩
    · show 0 ≤ (line : ℚ) * 18
      positivity
    · show (line : ℚ) * 18 ≤ (d.get_line_count : ℚ) * 18
      have hcast : (line : ℚ) ≤ (d.get_line_count : ℚ) := by
        exact_mod_cast Nat.le_of_lt hline
      exact mul_le_mul_of_nonneg_right hcast (by norm_num)

/-- Claim C8 witness: on a fresh document (offset 0, one line) a wheel
delta of 5 keeps the offset within the range from 0 to the line count
times 18, and scrolling to line 0 sets the offset to 0, which is in
range. -/
theorem c8_scroll_clamped_witness :
    (0 ≤ (Document.apply_scroll_delta Document.new 5).scroll_offset ∧
      (Document.apply_scroll_delta Document.new 5).scroll_offset
        ≤ (Document.new.get_line_count : ℚ) * 18) ∧
    ((Document.scroll_to_line Document.new 0).scroll_offset = (0 : ℚ) * 18 ∧
      0 ≤ (Document.scroll_to_line Document.new 0).scroll_offset ∧
      (Document.scroll_to_line Document.new 0).scroll_offset
        ≤ (Document.new.get_line_count : ℚ) * 18) :=
  c8_scroll_clamped Document.new 5 0
    ⟨le_refl 0, by norm_num [Document.new, Document.get_line_count, linesCount]⟩
    (by decide)

/-- Claim C9 counterexample: after finding the two-character needle wö in
content wörld the selection is the byte range (0, 3) and the status bar
reports 3, yet the selected slice has 2 characters: the reported selection
size is the byte count, not the character count. -/
theorem c9_counterexample :
    (Document.sel_display
        ((Document.find_text
          (Document.apply_edit Document.new "wörld".toList)
          "wö".toList).1) = some 3) ∧
    (byteSlice
        ((Document.find_text
          (Document.apply_edit Document.new "wörld".toList)
          "wö".toList).1).content 0 3).length = 2 ∧
    (3 : Nat) ≠ 2 := by
  exact ⟨by decide, by decide, by decide⟩

/-- Claim C9 amended: the selection size reported to the user is the byte
length of the selected range (end minus start), which is at least its
character count and can strictly exceed it for multi-byte text: for a
boundary-aligned selection spanning exactly the characters b of the
content, the reported number is the UTF-8 byte length of b while the
character count is the length of b. -/
theorem c9_sel_display_bytes (d : Document) (a b c : List Char) (s e : Nat)
    (hc : d.content = a ++ b ++ c) (hsel : d.selection = some (s, e))
    (hs : s = utf8Len a) (he : e = utf8Len a + utf8Len b) :
    Document.sel_display d = some (utf8Len b) ∧
    byteSlice d.content s e = b ∧
    (byteSlice d.content s e).length ≤ utf8Len b := by
  have hslice : byteSlice d.content s e = b := by
    rw [hc, hs, he, byteSlice_append]
  refine ⟨?_, hslice, ?_⟩
  · unfold Document.sel_display
    rw [hsel, hs, he]
    show some (utf8Len a + utf8Len b - utf8Len a) = some (utf8Len b)
    rw [Nat.add_sub_cancel_left]
  · rw [hslice]
    exact length_le_utf8Len b

/-- Claim C9 amended witness: content wörld with boundary selection
(0, 3): the reported size is 3, the byte length of the slice wö, while its
character count 2 is at most 3. -/
theorem c9_sel_display_bytes_witness :
    Document.sel_display
        { Document.new with content := "wörld".toList, selection := some (0, 3) }
      = some (utf8Len "wö".toList) ∧
    byteSlice
        { Document.new with
            content := "wörld".toList, selection := some (0, 3) }.content 0 3
      = "wö".toList ∧
    (byteSlice
        { Document.new with
            content := "wörld".toList, selection := some (0, 3) }.content 0 3).length
      ≤ utf8Len "wö".toList :=
  c9_sel_display_bytes
    { Document.new with content := "wörld".toList, selection := some (0, 3) }
    [] "wö".toList "rld".toList 0 3
    (by decide) rfl (by decide) (by decide)
